import Mathlib

/-!
Verification of the yeerugina lamp-control library.

The command data model of `cmd.rs` (`Action`, `Effect`, `SmoothDuration`,
`Command`) and the connection manager of `lamp.rs` (`Lamp::connect_timeout`,
`Lamp::send_cmd`) are shallowly embedded below. Machine integers (`u8`, `u16`,
`u32`) are modelled as `Nat` with explicit range hypotheses where the width
matters; `std::time::Duration` is modelled as its length in nanoseconds; a Rust
panic is modelled as `none`; `std::io::Result` is modelled as `Except IoError`.
The network is modelled by a precomputed resolution outcome: address resolution
either fails with an I/O error or yields the ordered list of per-endpoint
connection outcomes.
-/

namespace Yeerugina

namespace Duration

/-- `Duration::from_millis`: a `std::time::Duration` is modelled as its length
in nanoseconds, a plain `Nat`. -/
def fromMillis (ms : Nat) : Nat := ms * 1000000

/-- `Duration::as_millis` (whole milliseconds, truncating). -/
def asMillis (d : Nat) : Nat := d / 1000000

/-- `Duration::is_zero`. -/
def isZero (d : Nat) : Bool := d == 0

end Duration

/-- The inner enum of `Action` in `cmd.rs`: `SetCtAbx(u16)` carries a color
temperature in kelvins, `SetRgb(u32)` carries a packed 24-bit color. -/
inductive InnerAction where
  | SetCtAbx (ct : Nat)
  | SetRgb (rgb : Nat)
deriving DecidableEq, Repr

/-- `Action` in `cmd.rs`: a newtype struct enclosing `InnerAction` so that
restrictions on values can be enforced at construction time. -/
structure Action where
  inner : InnerAction
deriving DecidableEq, Repr

namespace Action

/-- `Action::new_ct` from `cmd.rs`: rejects (returns `None` for) any color
temperature outside the inclusive range 1700..=6500 kelvins. -/
def new_ct (ct : Nat) : Option Action :=
  if ¬ (1700 ≤ ct ∧ ct ≤ 6500) then
    none
  else
    some ⟨.SetCtAbx ct⟩

/-- `Action::new_rgb_from_int` from `cmd.rs`: a value above 24 bits has its
highest byte masked off (`rgb & 0x00FFFFFF`); construction never fails.
The lower bound of the Rust range check `(0..=0xFFFFFF).contains` is vacuous
for an unsigned integer. -/
def new_rgb_from_int (rgb : Nat) : Option Action :=
  if ¬ (rgb ≤ 0xFFFFFF) then
    some ⟨.SetRgb (rgb &&& 0xFFFFFF)⟩
  else
    some ⟨.SetRgb rgb⟩

/-- `u32::from_be_bytes` applied to four bytes, most significant first. -/
def u32FromBeBytes (b3 b2 b1 b0 : Nat) : Nat :=
  b3 * 2 ^ 24 + b2 * 2 ^ 16 + b1 * 2 ^ 8 + b0

/-- `Action::new_rgb_from_parts` from `cmd.rs`: packs `[0, r, g, b]` big-endian;
no validation is performed since the largest byte is zero by construction. -/
def new_rgb_from_parts (r g b : Nat) : Option Action :=
  some ⟨.SetRgb (u32FromBeBytes 0 r g b)⟩

end Action

/-- `SmoothDuration` in `cmd.rs`: a newtype enclosing a `Duration`, documented
in the source as enforcing that smooth transitions last at least 30 ms. -/
structure SmoothDuration where
  dur : Nat
deriving DecidableEq, Repr

namespace SmoothDuration

/-- `impl From for SmoothDuration` in `cmd.rs`: a value whose whole-millisecond
count is below 30 is replaced by exactly 30 ms; otherwise it is kept. -/
def fromDuration (value : Nat) : SmoothDuration :=
  if Duration.asMillis value < 30 then ⟨Duration.fromMillis 30⟩ else ⟨value⟩

/-- The derived `Default` on `SmoothDuration` in `cmd.rs`: `Duration::default()`
is the zero duration, so the derived default wraps it unchecked. -/
def defaultValue : SmoothDuration := ⟨0⟩

/-- `impl Display for SmoothDuration` in `cmd.rs`: a quoted `smooth` literal,
a comma, then the duration in whole milliseconds. -/
def display (sd : SmoothDuration) : String :=
  "\"smooth\"," ++ toString (Duration.asMillis sd.dur)

end SmoothDuration

/-- `Effect` in `cmd.rs`: the transition between lamp states. `Sudden` is the
derived `Default`; `Smooth` carries a `SmoothDuration`. -/
inductive Effect where
  | Sudden
  | Smooth (d : SmoothDuration)
deriving DecidableEq, Repr

namespace Effect

/-- `impl From for Effect` in `cmd.rs`: the zero duration gives `Sudden`; any
other duration gives `Smooth` through the `SmoothDuration` clamp. -/
def fromDuration (value : Nat) : Effect :=
  if Duration.isZero value then .Sudden else .Smooth (SmoothDuration.fromDuration value)

end Effect

/-- `Command` in `cmd.rs`: an action, an effect and a `u8` request id. -/
structure Command where
  action : Action
  eff : Effect
  id : Nat
deriving DecidableEq, Repr

namespace Command

/-- `Command::to_request` in `cmd.rs`: the body is a bare todo placeholder,
which unconditionally panics for every command; a panic is modelled as `none`. -/
def to_request (_ : Command) : Option String := none

end Command

/-- The `std::io::ErrorKind` values this library distinguishes: it constructs
`InvalidInput` errors itself, and endpoint attempts may fail with kinds such as
`ConnectionRefused` or `TimedOut`. -/
inductive ErrorKind where
  | invalidInput
  | connectionRefused
  | timedOut
  | otherKind
deriving DecidableEq, Repr

/-- `std::io::Error`, modelled as its kind plus its message. -/
structure IoError where
  kind : ErrorKind
  msg : String
deriving DecidableEq, Repr

/-- A connected TCP stream, abstracted to a handle identifier. -/
abbrev TcpStream := Nat

/-- `Lamp` in `lamp.rs`: owns exactly one stream. -/
structure Lamp where
  stream : TcpStream
deriving DecidableEq, Repr

/-- The observable outcome of `Lamp::connect_timeout`: the returned result,
whether address resolution (`to_socket_addrs`) was performed, and how many
per-endpoint connection attempts were made. -/
structure ConnectOutcome where
  result : Except IoError Lamp
  resolvedAddrs : Bool
  attempts : Nat
deriving Repr

namespace Lamp

/-- The fallback loop inside `Lamp::connect_timeout` in `lamp.rs`: try each
resolved endpoint in order, return on the first success, remember the most
recent error otherwise; after the loop, report the remembered error, or the
`InvalidInput` "no addresses" error when nothing was attempted. The `Nat`
argument counts attempts already made. -/
def connectLoop : List (Except IoError TcpStream) → Option IoError → Nat → ConnectOutcome
  | [], some err, n => ⟨.error err, true, n⟩
  | [], none, n => ⟨.error ⟨.invalidInput, "No addresses provided"⟩, true, n⟩
  | .ok stream :: _, _, n => ⟨.ok ⟨stream⟩, true, n + 1⟩
  | .error e :: rest, _, n => connectLoop rest (some e) (n + 1)

/-- `Lamp::connect_timeout` in `lamp.rs`: a zero timeout is rejected with an
`InvalidInput` error before address resolution; otherwise the address argument
is resolved (`to_socket_addrs`, whose failure propagates) and each endpoint is
tried in order by `connectLoop`. -/
def connect_timeout (resolution : Except IoError (List (Except IoError TcpStream)))
    (timeout : Nat) : ConnectOutcome :=
  if Duration.isZero timeout then
    ⟨.error ⟨.invalidInput, "Non-zero timeout Duration required"⟩, false, 0⟩
  else
    match resolution with
    | .error e => ⟨.error e, true, 0⟩
    | .ok addrs => connectLoop addrs none 0

/-- `Lamp::send_cmd` in `lamp.rs`: writes the command's rendering followed by
the CR LF terminator to the stream and reads nothing. The source formats the
command with the `Display` trait, for which `cmd.rs` provides no implementation
for `Command` (the crate does not compile as written); per the spec the
rendering is `to_request`, which panics for every command, so the write is
modelled as appending `to_request` plus the terminator to the bytes written so
far, and it produces `none` whenever `to_request` does. -/
def send_cmd (written : String) (c : Command) : Option String :=
  (c.to_request).map (fun s => written ++ s ++ "\r\n")

end Lamp

end Yeerugina

namespace Yeerugina

/-- C1: the spec declares `Command::to_request` total, pure and panic-free, but
its body in `cmd.rs` is an unimplemented placeholder that panics for every
command (modelled as `none`): no command is ever serialized to a `String`. -/
theorem C1_to_request_panics_on_every_command (c : Command) :
    Command.to_request c = none := rfl

/-- C2: the validated action exists (`new_ct 3200` succeeds), but `to_request`
on the command with the smooth 3000 ms effect and id 32 panics (modelled as
`none`) instead of returning the specified wire line. -/
theorem C2_scenario_to_request_panics :
    Action.new_ct 3200 = some ⟨.SetCtAbx 3200⟩
    ∧ Command.to_request
        ⟨⟨.SetCtAbx 3200⟩,
         .Smooth (SmoothDuration.fromDuration (Duration.fromMillis 3000)), 32⟩ = none := by
  exact ⟨by decide, rfl⟩

/-- C3: `send_cmd` never writes the serialized line: the serialization goes
through `to_request`, which panics for every command, so for no command and no
prior stream contents does `send_cmd` produce the bytes of
`to_request(command)` followed by the terminator. -/
theorem C3_send_cmd_never_writes (written : String) (c : Command) :
    Lamp.send_cmd written c = none := rfl

/-- C4: the derived `Default` on `SmoothDuration` is a public construction path
yielding a zero-length smooth duration, strictly below the documented 30 ms
floor, so `Effect.Smooth SmoothDuration.defaultValue` is a publicly
constructible `Smooth` effect violating the invariant. -/
theorem C4_default_smooth_breaks_floor :
    SmoothDuration.defaultValue.dur = 0
    ∧ SmoothDuration.defaultValue.dur < Duration.fromMillis 30 := by
  exact ⟨rfl, by decide⟩

/-- C5: `Effect::from` yields `Sudden` exactly for the zero duration, and for
every non-zero duration yields `Smooth` carrying `max d (30 ms)`. -/
theorem C5_effect_from_duration (d : Nat) :
    (Effect.fromDuration d = .Sudden ↔ d = 0)
    ∧ (d ≠ 0 → Effect.fromDuration d = .Smooth ⟨max d (Duration.fromMillis 30)⟩) := by
  by_cases h : d = 0
  · subst h
    simp [Effect.fromDuration, Duration.isZero]
  · have hz : Duration.isZero d = false := by
      simp [Duration.isZero, h]
    refine ⟨⟨fun hs => ?_, fun h0 => absurd h0 h⟩, fun _ => ?_⟩
    · simp [Effect.fromDuration, hz] at hs
    · simp only [Effect.fromDuration, hz, Bool.false_eq_true, if_false]
      congr 1
      simp only [SmoothDuration.fromDuration, Duration.asMillis, Duration.fromMillis]
      split
      · next hlt =>
        have hd : d < 30 * 1000000 := by omega
        congr 1
        omega
      · next hge =>
        have hd : ¬ d / 1000000 < 30 := hge
        congr 1
        omega

/-- Witness for C5 at the non-zero 3 ms duration. -/
theorem C5_effect_from_duration_witness :
    (Duration.fromMillis 3 : Nat) ≠ 0
    ∧ Effect.fromDuration (Duration.fromMillis 3)
        = .Smooth ⟨max (Duration.fromMillis 3) (Duration.fromMillis 30)⟩ :=
  ⟨by decide, (C5_effect_from_duration (Duration.fromMillis 3)).2 (by decide)⟩

/-- C6: for every `u16` kelvin value, `new_ct` succeeds with the validated
`SetCtAbx` action exactly when 1700 ≤ kelvin ≤ 6500, and returns `none` for
every kelvin outside that inclusive range. -/
theorem C6_new_ct_range (ct : Nat) (_hct : ct < 65536) :
    (1700 ≤ ct ∧ ct ≤ 6500 → Action.new_ct ct = some ⟨.SetCtAbx ct⟩)
    ∧ (¬ (1700 ≤ ct ∧ ct ≤ 6500) → Action.new_ct ct = none) := by
  constructor
  · intro hin
    simp [Action.new_ct, hin]
  · intro hout
    simp [Action.new_ct, hout]

/-- Witness for C6: an in-range and an out-of-range kelvin value. -/
theorem C6_new_ct_range_witness :
    Action.new_ct 3200 = some ⟨.SetCtAbx 3200⟩ ∧ Action.new_ct 9000 = none :=
  ⟨(C6_new_ct_range 3200 (by decide)).1 (by decide),
   (C6_new_ct_range 9000 (by decide)).2 (by decide)⟩

/-- C7: for every `u32` value, `new_rgb_from_int` succeeds, and the packed
value it stores is the input masked to its low 24 bits. -/
theorem C7_new_rgb_from_int_masks (rgb : Nat) (h : rgb < 2 ^ 32) :
    Action.new_rgb_from_int rgb = some ⟨.SetRgb (rgb &&& 0xFFFFFF)⟩ := by
  unfold Action.new_rgb_from_int
  split
  · rfl
  · next hle =>
    have hle24 : rgb ≤ 0xFFFFFF := by omega
    have hmask : rgb &&& 0xFFFFFF = rgb := by
      have heq : rgb &&& 0xFFFFFF = rgb % 2 ^ 24 := Nat.and_pow_two_sub_one_eq_mod rgb 24
      rw [heq, Nat.mod_eq_of_lt (by omega)]
    rw [hmask]

/-- Witness for C7: a value above 24 bits has its top byte discarded. -/
theorem C7_new_rgb_from_int_masks_witness :
    (0xFFDEADFE : Nat) < 2 ^ 32
    ∧ Action.new_rgb_from_int 0xFFDEADFE = some ⟨.SetRgb (0xFFDEADFE &&& 0xFFFFFF)⟩ :=
  ⟨by decide, C7_new_rgb_from_int_masks 0xFFDEADFE (by decide)⟩

/-- C8: for every byte triple, `new_rgb_from_parts` agrees with
`new_rgb_from_int` applied to the big-endian combination of the bytes
`(0, r, g, b)`; in particular the triple (222, 173, 254) matches the packed
value `0xDEADFE`. -/
theorem C8_rgb_parts_eq_packed (r g b : Nat)
    (hr : r < 256) (hg : g < 256) (hb : b < 256) :
    Action.new_rgb_from_parts r g b
        = Action.new_rgb_from_int (Action.u32FromBeBytes 0 r g b)
    ∧ Action.new_rgb_from_parts 222 173 254 = Action.new_rgb_from_int 0xDEADFE := by
  constructor
  · unfold Action.new_rgb_from_parts Action.new_rgb_from_int Action.u32FromBeBytes
    split
    · next hgt =>
      exfalso
      omega
    · rfl
  · decide

/-- Witness for C8 at the byte triple (222, 173, 254). -/
theorem C8_rgb_parts_eq_packed_witness :
    Action.new_rgb_from_parts 222 173 254
      = Action.new_rgb_from_int (Action.u32FromBeBytes 0 222 173 254) :=
  (C8_rgb_parts_eq_packed 222 173 254 (by decide) (by decide) (by decide)).1

end Yeerugina

namespace Yeerugina

/-- Shared lemma: if an endpoint list has the successful connection at position
`i` and only failures before it, `connectLoop` returns that connection after
exactly `i + 1` further attempts, whatever error was remembered so far. -/
theorem connectLoop_first_ok (addrs : List (Except IoError TcpStream)) :
    ∀ (i : Nat) (hi : i < addrs.length) (s : TcpStream),
      addrs.get ⟨i, hi⟩ = .ok s →
      (∀ j (hj : j < addrs.length), j < i → ∃ e, addrs.get ⟨j, hj⟩ = .error e) →
      ∀ (lastErr : Option IoError) (n : Nat),
        Lamp.connectLoop addrs lastErr n = ⟨.ok ⟨s⟩, true, n + (i + 1)⟩ := by
  induction addrs with
  | nil =>
    intro i hi
    simp at hi
  | cons a rest ih =>
    intro i hi s hget hprev lastErr n
    cases i with
    | zero =>
      simp only [List.get] at hget
      subst hget
      rfl
    | succ i2 =>
      obtain ⟨e, he⟩ :=
        hprev 0 (by simp) (Nat.succ_pos i2)
      simp only [List.get] at he
      subst he
      show Lamp.connectLoop rest (some e) (n + 1) = _
      have hi2 : i2 < rest.length := by
        simpa [Nat.succ_lt_succ_iff] using hi
      have hget2 : rest.get ⟨i2, hi2⟩ = .ok s := by
        simpa [List.get] using hget
      have hprev2 : ∀ j (hj : j < rest.length), j < i2 → ∃ e2, rest.get ⟨j, hj⟩ = .error e2 := by
        intro j hj hlt
        have := hprev (j + 1) (by simpa [Nat.succ_lt_succ_iff] using hj)
          (Nat.succ_lt_succ hlt)
        simpa [List.get] using this
      rw [ih i2 hi2 s hget2 hprev2 (some e) (n + 1)]
      congr 1
      omega

/-- Shared lemma: if every endpoint in a non-empty list fails and the last
failure is `e`, `connectLoop` returns the error `e` after attempting the whole
list, whatever error was remembered before. -/
theorem connectLoop_all_errors (addrs : List (Except IoError TcpStream)) :
    ∀ (e : IoError),
      (∀ x ∈ addrs, ∃ e2, x = .error e2) →
      addrs.getLast? = some (.error e) →
      ∀ (lastErr : Option IoError) (n : Nat),
        Lamp.connectLoop addrs lastErr n = ⟨.error e, true, n + addrs.length⟩ := by
  induction addrs with
  | nil =>
    intro e _ hlast
    simp at hlast
  | cons a rest ih =>
    intro e hall hlast lastErr n
    obtain ⟨e0, he0⟩ := hall a (by simp)
    subst he0
    show Lamp.connectLoop rest (some e0) (n + 1) = _
    cases rest with
    | nil =>
      simp only [List.getLast?_singleton, Option.some_inj] at hlast
      cases hlast
      rfl
    | cons b rest2 =>
      have hall2 : ∀ x ∈ b :: rest2, ∃ e2, x = .error e2 := by
        intro x hx
        exact hall x (List.mem_cons_of_mem _ hx)
      have hlast2 : (b :: rest2).getLast? = some (.error e) := by
        simpa [List.getLast?_cons_cons] using hlast
      rw [ih e hall2 hlast2 (some e0) (n + 1)]
      congr 1
      simp only [List.length_cons]
      omega

/-- C9: for every address argument, a zero timeout is rejected with the
invalid-input error, before address resolution is performed and with zero
endpoint connection attempts (no network I/O at all). -/
theorem C9_zero_timeout_rejected
    (resolution : Except IoError (List (Except IoError TcpStream))) :
    Lamp.connect_timeout resolution 0 =
      ⟨.error ⟨.invalidInput, "Non-zero timeout Duration required"⟩, false, 0⟩ := rfl

/-- C10: with a non-zero timeout, resolved endpoints are attempted in order:
the first success is returned after exactly the failing prefix plus one
attempts; if every endpoint fails, the returned error is the last endpoint's
error, the earlier ones being discarded; and an empty endpoint list yields the
fixed invalid-input error with zero attempts, whose kind differs from a
connection-refused error's kind. -/
theorem C10_connect_retry_policy (timeout : Nat) (ht : timeout ≠ 0)
    (outcomes : List (Except IoError TcpStream)) :
    (∀ (i : Nat) (hi : i < outcomes.length) (s : TcpStream),
        outcomes.get ⟨i, hi⟩ = .ok s →
        (∀ j (hj : j < outcomes.length), j < i → ∃ e, outcomes.get ⟨j, hj⟩ = .error e) →
        Lamp.connect_timeout (.ok outcomes) timeout = ⟨.ok ⟨s⟩, true, i + 1⟩)
    ∧ (∀ e : IoError,
        (∀ x ∈ outcomes, ∃ e2, x = .error e2) →
        outcomes.getLast? = some (.error e) →
        Lamp.connect_timeout (.ok outcomes) timeout =
          ⟨.error e, true, outcomes.length⟩)
    ∧ (outcomes = [] →
        Lamp.connect_timeout (.ok outcomes) timeout =
          ⟨.error ⟨.invalidInput, "No addresses provided"⟩, true, 0⟩)
    ∧ ErrorKind.invalidInput ≠ ErrorKind.connectionRefused := by
  have hz : Duration.isZero timeout = false := by
    simp [Duration.isZero, ht]
  have hstep : Lamp.connect_timeout (.ok outcomes) timeout =
      Lamp.connectLoop outcomes none 0 := by
    simp [Lamp.connect_timeout, hz]
  refine ⟨?_, ?_, ?_, by decide⟩
  · intro i hi s hget hprev
    rw [hstep, connectLoop_first_ok outcomes i hi s hget hprev none 0]
    congr 1
    omega
  · intro e hall hlast
    rw [hstep, connectLoop_all_errors outcomes e hall hlast none 0]
    congr 1
    omega
  · intro hempty
    subst hempty
    rw [hstep]
    rfl

/-- Witness for C10: endpoint A refuses, endpoint B times out; the reported
error is B's, after two attempts. -/
theorem C10_connect_retry_policy_witness :
    (1 : Nat) ≠ 0
    ∧ Lamp.connect_timeout
        (.ok [.error ⟨.connectionRefused, "A refused"⟩, .error ⟨.timedOut, "B timed out"⟩]) 1
      = ⟨.error ⟨.timedOut, "B timed out"⟩, true, 2⟩ := by
  refine ⟨by decide, ?_⟩
  have h := (C10_connect_retry_policy 1 (by decide)
      [.error ⟨.connectionRefused, "A refused"⟩, .error ⟨.timedOut, "B timed out"⟩]).2.1
      ⟨.timedOut, "B timed out"⟩ ?_ ?_
  · simpa using h
  · intro x hx
    simp only [List.mem_cons, List.not_mem_nil, or_false] at hx
    rcases hx with h1 | h2
    · exact ⟨_, h1⟩
    · exact ⟨_, h2⟩
  · rfl

end Yeerugina
